import Mathlib

/-!
Shallow embedding of the `node-rfc2397` data-URL library
(`src/index.js` and `src/rfc3986-regexp.js`) and proofs about it.

JavaScript strings are modelled as `List Char`, Node `Buffer`s as `List Nat`
(each entry a byte value `< 256`), and thrown exceptions as the `Except JsErr`
monad, distinguishing `new Error(msg)` from `TypeError`s.
-/

namespace RFC2397

/-- Errors the JavaScript code can throw: `new Error(msg)` for grammar
violations, or a `TypeError` (either thrown explicitly by `composeSync` or
raised by the runtime, e.g. reading a property of `undefined`). -/
inductive JsErr where
  | error (msg : String)
  | typeError (msg : String)
deriving DecidableEq, Repr

/-- The value held in `info.data`: a Node `Buffer` (a byte sequence) or any
non-Buffer JavaScript value.  `composeSync` only ever tests
`Buffer.isBuffer(info.data)`, so all non-Buffer values behave identically and
are collapsed into the single case `notBuf`. -/
inductive JsData where
  | buf (bytes : List Nat)
  | notBuf
deriving DecidableEq, Repr

/-- The record parsed/composed by the library (JSDoc typedef `Info` in
`src/index.js`).  In JS the `base64` property is simply absent when the
`;base64` marker was not seen; absence is modelled as `false` (the code only
ever uses the field in boolean tests).  `parameters` is a JS plain object with
string keys; it is modelled as an association list in insertion order with
unique keys, which is exactly how the code builds and iterates it. -/
structure Info where
  base64 : Bool
  mime : List Char
  parameters : List (List Char × List Char)
  data : JsData
deriving DecidableEq, Repr

/-! ### Character classes (`src/rfc3986-regexp.js`) -/

/-- RFC 3986 `unreserved` class `/[A-Za-z0-9\-\._~]/` (rfc3986-regexp.js, line 8). -/
def isUnreserved (c : Char) : Bool :=
  decide (('A' ≤ c ∧ c ≤ 'Z') ∨ ('a' ≤ c ∧ c ≤ 'z') ∨ ('0' ≤ c ∧ c ≤ '9') ∨
    c = '-' ∨ c = '.' ∨ c = '_' ∨ c = '~')

/-- Hex-digit class `[A-Fa-f0-9]` used in `escaped` `/%[A-Fa-f0-9]{2}/`
(rfc3986-regexp.js, line 10). -/
def isHexDigit (c : Char) : Bool :=
  decide (('A' ≤ c ∧ c ≤ 'F') ∨ ('a' ≤ c ∧ c ≤ 'f') ∨ ('0' ≤ c ∧ c ≤ '9'))

/-- Numeric value of a hex digit (both cases), as `Buffer.from(_, "hex")`
reads it. -/
def hexVal (c : Char) : Nat :=
  if '0' ≤ c ∧ c ≤ '9' then c.toNat - 48
  else if 'A' ≤ c ∧ c ≤ 'F' then c.toNat - 55
  else c.toNat - 87

/-- Lower-case hex digit, as produced by JS `Number.prototype.toString(16)`. -/
def hexCharLower (n : Nat) : Char :=
  if n < 10 then Char.ofNat (48 + n) else Char.ofNat (87 + n)

/-! ### Percent codec (`pct_decode` / `pct_encode`, src/index.js lines 14-57) -/

/-- Model of matching the anchored regex
`^(?:[A-Za-z0-9\-\._~]|%[A-Fa-f0-9]{2})*$` built at src/index.js lines 15-17.
Because `%` is not an unreserved character the regex is deterministic, so the
whole-string match is equivalent to this left-to-right scan. -/
def pctMatches : List Char → Bool
  | [] => true
  | c :: rest =>
    if c = '%' then
      match rest with
      | c1 :: c2 :: rest2 => isHexDigit c1 && isHexDigit c2 && pctMatches rest2
      | _ => false
    else isUnreserved c && pctMatches rest

/-- The decoding loop of `pct_decode` (src/index.js lines 23-31): the validated
string is cut into `%XX` triplets (one byte from the hex value) and runs of
unreserved characters (one byte per character, its ASCII code).  Like the JS
`split`-and-concat, it is only ever applied after `pctMatches` succeeded. -/
def pctDecodeRaw : List Char → List Nat
  | [] => []
  | c :: rest =>
    if c = '%' then
      match rest with
      | c1 :: c2 :: rest2 => (hexVal c1 * 16 + hexVal c2) :: pctDecodeRaw rest2
      | _ => []
    else c.toNat :: pctDecodeRaw rest

/-- `pct_decode` (src/index.js lines 14-32): validate the whole string against
the regex, throw `Error("malformed data")` otherwise, then decode. -/
def pct_decode (s : List Char) : Except JsErr (List Nat) :=
  if pctMatches s then .ok (pctDecodeRaw s) else .error (.error "malformed data")

/-- `pct_encode` (src/index.js lines 40-57) applied to a byte sequence: an
unreserved byte is emitted as its character, any other byte as `%` plus two
lower-case hex digits (`byte.toString(16)`, zero-padded to width 2). -/
def pct_encode : List Nat → List Char
  | [] => []
  | b :: rest =>
    if isUnreserved (Char.ofNat b) then Char.ofNat b :: pct_encode rest
    else '%' :: hexCharLower (b / 16) :: hexCharLower (b % 16) :: pct_encode rest

/-! ### Base64 codec (`base64_decode` / `base64_encode`, src/index.js lines 65-90) -/

/-- Value of a character in the standard base64 alphabet `A-Za-z0-9+/`;
`none` for every other character (including the padding `=`). -/
def charToSextet (c : Char) : Option Nat :=
  if 'A' ≤ c ∧ c ≤ 'Z' then some (c.toNat - 65)
  else if 'a' ≤ c ∧ c ≤ 'z' then some (c.toNat - 71)
  else if '0' ≤ c ∧ c ≤ '9' then some (c.toNat + 4)
  else if c = '+' then some 62
  else if c = '/' then some 63
  else none

/-- Character for a sextet value `n < 64` in the standard base64 alphabet. -/
def sextetToChar (n : Nat) : Char :=
  if n < 26 then Char.ofNat (65 + n)
  else if n < 52 then Char.ofNat (71 + n)
  else if n < 62 then Char.ofNat (n - 4)
  else if n = 62 then '+' else '/'

/-- Membership in the base64 alphabet class `[A-Za-z0-9+\/]`. -/
def isB64Char (c : Char) : Bool := (charToSextet c).isSome

/-- Model of matching `/^[A-Za-z0-9+\/]*=?=?$/` (src/index.js line 71): a run
of alphabet characters followed by at most two `=` at the very end.  `=` is
not in the alphabet class, so the regex is deterministic and equivalent to
this scan. -/
def b64matches : List Char → Bool
  | [] => true
  | c :: rest =>
    if isB64Char c then b64matches rest
    else decide (c = '=' ∧ (rest = [] ∨ rest = ['=']))

/-- The six bits of a sextet, most significant first, each entry `0` or `1`. -/
def bits6 (n : Nat) : List Nat :=
  [n / 32 % 2, n / 16 % 2, n / 8 % 2, n / 4 % 2, n / 2 % 2, n % 2]

/-- Regroup a bit list into bytes, dropping an incomplete trailing group. -/
def bytesFromBits : List Nat → List Nat
  | b1 :: b2 :: b3 :: b4 :: b5 :: b6 :: b7 :: b8 :: rest =>
      (b1 * 128 + b2 * 64 + b3 * 32 + b4 * 16 + b5 * 8 + b6 * 4 + b7 * 2 + b8)
        :: bytesFromBits rest
  | _ => []

/-- Model of Node's `Buffer.from(s, "base64")` (src/index.js line 76): every
character outside the alphabet (in particular the `=` padding) is ignored, the
remaining sextets are concatenated into a bit stream, and complete bytes are
taken from it.  `base64_decode` only applies it after its own validation. -/
def b64raw (s : List Char) : List Nat :=
  bytesFromBits ((s.filterMap charToSextet).flatMap bits6)

/-- `base64_decode` (src/index.js lines 65-77): throw `Error("malformed data")`
unless the length is a multiple of 4 and the string matches the padding regex,
then decode with Node's base64 reader. -/
def base64_decode (s : List Char) : Except JsErr (List Nat) :=
  if s.length % 4 = 0 ∧ b64matches s then .ok (b64raw s)
  else .error (.error "malformed data")

/-- `base64_encode` (src/index.js lines 87-90): Node's
`Buffer.prototype.toString("base64")`, i.e. canonical RFC 4648 base64 with `=`
padding and no line breaks, processing three input bytes per four output
characters. -/
def base64_encode : List Nat → List Char
  | [] => []
  | [b1] => [sextetToChar (b1 / 4), sextetToChar (b1 % 4 * 16), '=', '=']
  | [b1, b2] => [sextetToChar (b1 / 4), sextetToChar (b1 % 4 * 16 + b2 / 16),
      sextetToChar (b2 % 16 * 4), '=']
  | b1 :: b2 :: b3 :: rest =>
      sextetToChar (b1 / 4) :: sextetToChar (b1 % 4 * 16 + b2 / 16) ::
      sextetToChar (b2 % 16 * 4 + b3 / 64) :: sextetToChar (b3 % 64) ::
      base64_encode rest

/-! ### UTF-8 boundary between JS strings and Buffers

`pct_decode(...).toString()` turns the decoded bytes into a JS string via
UTF-8 (Node's default encoding, invalid sequences becoming U+FFFD), and
`Buffer.from(string)` / `pct_encode(string)` turn a JS string into its UTF-8
bytes.  These two Node primitives are modelled here. -/

/-- UTF-8 bytes of one scalar value, as `Buffer.from(string)` produces them. -/
def utf8EncodeChar (c : Char) : List Nat :=
  let n := c.toNat
  if n < 128 then [n]
  else if n < 2048 then [192 + n / 64, 128 + n % 64]
  else if n < 65536 then [224 + n / 4096, 128 + n / 64 % 64, 128 + n % 64]
  else [240 + n / 262144, 128 + n / 4096 % 64, 128 + n / 64 % 64, 128 + n % 64]

/-- Model of `Buffer.from(string)`: the concatenated UTF-8 bytes. -/
def utf8Encode (s : List Char) : List Nat := s.flatMap utf8EncodeChar

/-- The replacement character U+FFFD emitted for invalid byte sequences. -/
def replChar : Char := Char.ofNat 65533

/-- One step of UTF-8 decoding: given the first byte and the remaining bytes,
produce the decoded character (U+FFFD for an ill-formed sequence) and the not
yet consumed remainder.  Not recursive, so that the driver below stays easy to
reason about. -/
def utf8Split (b : Nat) (rest : List Nat) : Char × List Nat :=
  if b < 128 then (Char.ofNat b, rest)
  else if 194 ≤ b ∧ b < 224 then
    match rest with
    | b2 :: r2 =>
      if 128 ≤ b2 ∧ b2 < 192 then (Char.ofNat ((b - 192) * 64 + (b2 - 128)), r2)
      else (replChar, rest)
    | [] => (replChar, [])
  else if 224 ≤ b ∧ b < 240 then
    match rest with
    | b2 :: b3 :: r3 =>
      if (128 ≤ b2 ∧ b2 < 192) ∧ (128 ≤ b3 ∧ b3 < 192) then
        ((if Nat.isValidChar ((b - 224) * 4096 + (b2 - 128) * 64 + (b3 - 128)) then
            Char.ofNat ((b - 224) * 4096 + (b2 - 128) * 64 + (b3 - 128))
          else replChar), r3)
      else (replChar, rest)
    | _ => (replChar, [])
  else if 240 ≤ b ∧ b < 245 then
    match rest with
    | b2 :: b3 :: b4 :: r4 =>
      if (128 ≤ b2 ∧ b2 < 192) ∧ (128 ≤ b3 ∧ b3 < 192) ∧ (128 ≤ b4 ∧ b4 < 192) then
        ((if Nat.isValidChar
              ((b - 240) * 262144 + (b2 - 128) * 4096 + (b3 - 128) * 64 + (b4 - 128)) then
            Char.ofNat ((b - 240) * 262144 + (b2 - 128) * 4096 + (b3 - 128) * 64 + (b4 - 128))
          else replChar), r4)
      else (replChar, rest)
    | _ => (replChar, [])
  else (replChar, rest)

/-- Recursion driver for UTF-8 decoding, structural on a fuel parameter so
that the function evaluates inside the kernel; `utf8Decode` always supplies
enough fuel (each step consumes at least one byte). -/
def utf8DecodeAux : Nat → List Nat → List Char
  | 0, _ => []
  | _ + 1, [] => []
  | fuel + 1, b :: rest =>
      (utf8Split b rest).1 :: utf8DecodeAux fuel (utf8Split b rest).2

/-- Model of `Buffer.prototype.toString()` (UTF-8 decoding): well-formed
sequences decode to their scalar value, ill-formed bytes to U+FFFD.  The
theorems below only ever evaluate it on well-formed UTF-8 (output of
`utf8Encode`), where this decoder agrees exactly with Node. -/
def utf8Decode (bs : List Nat) : List Char := utf8DecodeAux bs.length bs

/-! ### JS string helpers used by the parser/composer -/

/-- `String.prototype.split(sep)` for a one-character separator: JS split
never returns an empty array — splitting the empty string yields `[""]`. -/
def jsSplit (sep : Char) : List Char → List (List Char)
  | [] => [[]]
  | c :: rest =>
    if c = sep then [] :: jsSplit sep rest
    else
      match jsSplit sep rest with
      | [] => [[c]]
      | t :: ts => (c :: t) :: ts

/-- `Array.prototype.join(sep)` for a one-character separator. -/
def joinSep (sep : Char) : List (List Char) → List Char
  | [] => []
  | [t] => t
  | t :: ts => t ++ sep :: joinSep sep ts

/-- Split at the first occurrence of `sep`; `none` when `sep` is absent. -/
def splitFirst (sep : Char) : List Char → Option (List Char × List Char)
  | [] => none
  | c :: rest =>
    if c = sep then some ([], rest)
    else (splitFirst sep rest).map fun p => (c :: p.1, p.2)

/-- JS regex line terminators, which `.` in `/^data:(.*?),(.*)$/` does not
match: LF, CR, U+2028, U+2029. -/
def isLineTerm (c : Char) : Bool :=
  decide (c = Char.ofNat 10 ∨ c = Char.ofNat 13 ∨ c = Char.ofNat 8232 ∨ c = Char.ofNat 8233)

/-- First value stored under key `k` in the association list. -/
def lookupKey (k : List Char) : List (List Char × List Char) → Option (List Char)
  | [] => none
  | (a, v) :: rest => if a = k then some v else lookupKey k rest

/-- The own property names of `Object.prototype` in Node.  The JS `in`
operator used at src/index.js lines 131 and 142 walks the prototype chain of
the plain object `parameters`, so it also reports these inherited names. -/
def protoProps : List (List Char) :=
  [("constructor").toList, ("hasOwnProperty").toList, ("isPrototypeOf").toList,
   ("propertyIsEnumerable").toList, ("toLocaleString").toList, ("toString").toList,
   ("valueOf").toList, ("__proto__").toList, ("__defineGetter__").toList,
   ("__defineSetter__").toList, ("__lookupGetter__").toList, ("__lookupSetter__").toList]

/-- The JS test `k in parameters` on the plain object built by `parseSync`:
true for own keys and for properties inherited from `Object.prototype`. -/
def jsIn (k : List Char) (ps : List (List Char × List Char)) : Bool :=
  decide (k ∈ protoProps) || (lookupKey k ps).isSome

/-- Lines 131-132 of src/index.js: `if (!(attribute in parameters))
parameters[attribute] = value;` — first occurrence of a key wins, and a key
shadowing an `Object.prototype` property is never inserted at all.  (For the
key `__proto__` the JS assignment would additionally be a silent no-op, which
coincides with skipping.) -/
def insertParam (a v : List Char) (ps : List (List Char × List Char)) :
    List (List Char × List Char) :=
  if jsIn a ps then ps else ps ++ [(a, v)]

/-! ### The parser (`parseSync`, src/index.js lines 97-151) -/

/-- One step of the `reduce` at lines 118-134: split the parameter token on
`=`; unless that yields exactly two parts, throw
`Error("invalid dataurl parameter")`; otherwise percent-decode attribute and
value independently (each may itself throw `Error("malformed data")`) and
insert first-wins. -/
def parseParam (tok : List Char) (acc : List (List Char × List Char)) :
    Except JsErr (List (List Char × List Char)) :=
  match jsSplit '=' tok with
  | [a, v] =>
    match pct_decode a with
    | .error e => .error e
    | .ok ab =>
      match pct_decode v with
      | .error e => .error e
      | .ok vb => .ok (insertParam (utf8Decode ab) (utf8Decode vb) acc)
  | _ => .error (.error "invalid dataurl parameter")

/-- The whole `reduce` over the remaining mediatype tokens. -/
def parseParams : List (List Char) → List (List Char × List Char) →
    Except JsErr (List (List Char × List Char))
  | [], acc => .ok acc
  | tok :: rest, acc =>
    match parseParam tok acc with
    | .error e => .error e
    | .ok acc2 => parseParams rest acc2

/-- The RFC 2397 defaulting at lines 136-146: with an empty extracted mime
token, an empty parameter object becomes `text/plain;charset=US-ASCII`, and a
parameter object that has a `charset` key upgrades the mime to `text/plain`. -/
def applyDefaults (mime : List Char) (ps : List (List Char × List Char)) :
    List Char × List (List Char × List Char) :=
  if mime = [] ∧ ps = [] then
    (("text/plain").toList, [(("charset").toList, ("US-ASCII").toList)])
  else if mime = [] ∧ jsIn (("charset").toList) ps then (("text/plain").toList, ps)
  else (mime, ps)

/-- Model of `dataurl.match(/^data:(.*?),(.*)$/)` (line 101): the string must
start with `data:`, neither capture group may contain a line terminator (JS
`.`), and the lazy first group makes the match split at the first comma. -/
def splitDataUrl : List Char → Option (List Char × List Char)
  | 'd' :: 'a' :: 't' :: 'a' :: ':' :: rest =>
      if rest.any isLineTerm then none else splitFirst ',' rest
  | _ => none

/-- Lines 106-116 of src/index.js: split capture group 1 on `;`; if the last
token is literally `base64`, record the flag and pop it; the first remaining
token (if any) is the mime type and the rest are parameter tokens. -/
def parseTokens (g1 : List Char) : Bool × List (List Char) :=
  if (jsSplit ';' g1).getLast? = some (("base64").toList) then (true, (jsSplit ';' g1).dropLast)
  else (false, jsSplit ';' g1)

/-- `parseSync` (src/index.js lines 97-151).  Notable faithfulness points:
the `base64` marker is recognised only as the *last* `;`-token (line 111);
`mediatype.shift()` on the emptied token list yields JS `undefined`, in which
case line 136 (`info.mime.length`) raises a runtime `TypeError` — but only
after the parameter `reduce` (lines 118-134) already ran, so parameter errors
take precedence; the payload is decoded last (line 148). -/
def parseSync (s : List Char) : Except JsErr Info :=
  match splitDataUrl s with
  | none => .error (.error "malformed dataurl")
  | some (g1, g2) =>
    match parseParams (parseTokens g1).2.tail [] with
    | .error e => .error e
    | .ok ps =>
      match (parseTokens g1).2.head? with
      | none => .error (.typeError "Cannot read properties of undefined (reading 'length')")
      | some mime =>
        match (if (parseTokens g1).1 then base64_decode g2 else pct_decode g2) with
        | .error e => .error e
        | .ok bytes =>
          .ok ⟨(parseTokens g1).1, (applyDefaults mime ps).1, (applyDefaults mime ps).2, .buf bytes⟩

/-! ### The composer (`composeSync`, src/index.js lines 171-200) -/

/-- One `attribute=value` token of the composed mediatype (lines 186-188):
key and value are UTF-8 encoded by `Buffer.from` inside `pct_encode` and then
percent-encoded. -/
def paramToken (kv : List Char × List Char) : List Char :=
  pct_encode (utf8Encode kv.1) ++ '=' :: pct_encode (utf8Encode kv.2)

/-- `composeSync` (src/index.js lines 171-200): `TypeError` unless `data` is a
Buffer; otherwise `"data:" + mediatype.join(";") + (";base64")? + "," +
payload`, the payload being base64- or percent-encoded according to the flag.
(`info.mime || ""` collapses a missing mime to the empty string, which the
`List Char` model represents directly as `[]`.) -/
def composeSync (info : Info) : Except JsErr (List Char) :=
  match info.data with
  | .notBuf => .error (.typeError "expected info.data to be a Buffer")
  | .buf bytes =>
    let mediatype := info.mime :: info.parameters.map paramToken
    let marker := if info.base64 then (";base64").toList else []
    let payload := if info.base64 then base64_encode bytes else pct_encode bytes
    .ok (("data:").toList ++ joinSep ';' mediatype ++ marker ++ ',' :: payload)

/-- Spec-side description of percent decoding, written from the spec's words:
the input is a sequence of items, each either an unreserved character
(contributing its ASCII code as one byte) or a `%XX` triplet of two hex digits
(contributing the byte with hex value `XX`), the bytes concatenated in
original order.  `PctSpec s bs` holds exactly when `s` matches the whole-string
pattern and its decoding is `bs`. -/
inductive PctSpec : List Char → List Nat → Prop
  | nil : PctSpec [] []
  | unres {c : Char} {rest : List Char} {bs : List Nat} :
      isUnreserved c = true → PctSpec rest bs → PctSpec (c :: rest) (c.toNat :: bs)
  | esc {c1 c2 : Char} {rest : List Char} {bs : List Nat} :
      isHexDigit c1 = true → isHexDigit c2 = true → PctSpec rest bs →
      PctSpec ('%' :: c1 :: c2 :: rest) ((hexVal c1 * 16 + hexVal c2) :: bs)

/-! ### Basic character lemmas -/

theorem char_toNat_ofNat {n : Nat} (h : n < 55296) : (Char.ofNat n).toNat = n := by
  have hv : Nat.isValidChar n := Or.inl h
  simp [Char.ofNat, hv, Char.ofNatAux, Char.toNat, UInt32.toNat, BitVec.toNat_ofNatLt]

theorem hexCharLower_spec : ∀ n, n < 16 →
    isHexDigit (hexCharLower n) = true ∧ hexVal (hexCharLower n) = n ∧
      hexCharLower n ≠ '%' := by decide

theorem isUnreserved_props {c : Char} (h : isUnreserved c = true) :
    c ≠ '%' ∧ c ≠ ';' ∧ c ≠ ',' ∧ c ≠ '=' ∧ isLineTerm c = false := by
  refine ⟨?_, ?_, ?_, ?_, ?_⟩
  · rintro rfl; exact absurd h (by decide)
  · rintro rfl; exact absurd h (by decide)
  · rintro rfl; exact absurd h (by decide)
  · rintro rfl; exact absurd h (by decide)
  · cases hl : isLineTerm c with
    | false => rfl
    | true =>
      unfold isLineTerm at hl
      rcases of_decide_eq_true hl with rfl | rfl | rfl | rfl <;> exact absurd h (by decide)

theorem isHexDigit_props {c : Char} (h : isHexDigit c = true) :
    c ≠ '%' ∧ c ≠ ';' ∧ c ≠ ',' ∧ c ≠ '=' ∧ isLineTerm c = false := by
  refine ⟨?_, ?_, ?_, ?_, ?_⟩
  · rintro rfl; exact absurd h (by decide)
  · rintro rfl; exact absurd h (by decide)
  · rintro rfl; exact absurd h (by decide)
  · rintro rfl; exact absurd h (by decide)
  · cases hl : isLineTerm c with
    | false => rfl
    | true =>
      unfold isLineTerm at hl
      rcases of_decide_eq_true hl with rfl | rfl | rfl | rfl <;> exact absurd h (by decide)

/-! ### Unfolding lemmas for the percent codec -/

theorem pctMatches_esc (c1 c2 : Char) (rest : List Char) :
    pctMatches ('%' :: c1 :: c2 :: rest) =
      (isHexDigit c1 && isHexDigit c2 && pctMatches rest) := rfl

theorem pctMatches_cons {c : Char} (rest : List Char) (hne : c ≠ '%') :
    pctMatches (c :: rest) = (isUnreserved c && pctMatches rest) := by
  rw [pctMatches.eq_def]
  simp [hne]

theorem pctDecodeRaw_esc (c1 c2 : Char) (rest : List Char) :
    pctDecodeRaw ('%' :: c1 :: c2 :: rest) =
      (hexVal c1 * 16 + hexVal c2) :: pctDecodeRaw rest := rfl

theorem pctDecodeRaw_cons {c : Char} (rest : List Char) (hne : c ≠ '%') :
    pctDecodeRaw (c :: rest) = c.toNat :: pctDecodeRaw rest := by
  rw [pctDecodeRaw.eq_def]
  simp [hne]

theorem pct_encode_cons_unres {b : Nat} (rest : List Nat)
    (h : isUnreserved (Char.ofNat b) = true) :
    pct_encode (b :: rest) = Char.ofNat b :: pct_encode rest := by
  simp [pct_encode, h]

theorem pct_encode_cons_esc {b : Nat} (rest : List Nat)
    (h : ¬ isUnreserved (Char.ofNat b) = true) :
    pct_encode (b :: rest) =
      '%' :: hexCharLower (b / 16) :: hexCharLower (b % 16) :: pct_encode rest := by
  simp [pct_encode, h]

/-- Percent round-trip, the shared workhorse: the encoding of any byte
sequence passes the validation regex and decodes back to the same bytes. -/
theorem pct_roundtrip (bs : List Nat) (h : ∀ b ∈ bs, b < 256) :
    pct_decode (pct_encode bs) = .ok bs := by
  have key : pctMatches (pct_encode bs) = true ∧ pctDecodeRaw (pct_encode bs) = bs := by
    induction bs with
    | nil => exact ⟨rfl, rfl⟩
    | cons b rest ih =>
      have hb : b < 256 := h b (List.mem_cons_self b rest)
      obtain ⟨ihm, ihd⟩ := ih fun x hx => h x (List.mem_cons_of_mem b hx)
      by_cases hu : isUnreserved (Char.ofNat b) = true
      · have hne := (isUnreserved_props hu).1
        rw [pct_encode_cons_unres rest hu, pctMatches_cons _ hne, pctDecodeRaw_cons _ hne,
          ihm, ihd, hu, char_toNat_ofNat (by omega)]
        exact ⟨rfl, rfl⟩
      · obtain ⟨hh1, hv1, -⟩ := hexCharLower_spec (b / 16) (by omega)
        obtain ⟨hh2, hv2, -⟩ := hexCharLower_spec (b % 16) (by omega)
        rw [pct_encode_cons_esc rest hu, pctMatches_esc, pctDecodeRaw_esc, ihm, ihd,
          hh1, hh2, hv1, hv2]
        exact ⟨rfl, by rw [show b / 16 * 16 + b % 16 = b by omega]⟩
  rw [pct_decode, if_pos key.1, key.2]

/-- C4: for every byte sequence `bs`, percent-decoding the percent-encoding
returns exactly `bs`: the encoding always passes `pct_decode`'s validator and
the decode inverts the encode byte-for-byte. -/
theorem C4_pct_decode_pct_encode (bs : List Nat) (h : ∀ b ∈ bs, b < 256) :
    pct_decode (pct_encode bs) = Except.ok bs := pct_roundtrip bs h

theorem C4_witness :
    (∀ b ∈ [0, 65, 255, 46], b < 256) ∧
      pct_decode (pct_encode [0, 65, 255, 46]) = Except.ok [0, 65, 255, 46] :=
  ⟨by decide, C4_pct_decode_pct_encode [0, 65, 255, 46] (by decide)⟩

/-! ### C6: characterisation of `pct_decode` -/

theorem PctSpec.matches_raw {s : List Char} {bs : List Nat} (h : PctSpec s bs) :
    pctMatches s = true ∧ pctDecodeRaw s = bs := by
  induction h with
  | nil => exact ⟨rfl, rfl⟩
  | unres hc _ ih =>
    have hne := (isUnreserved_props hc).1
    rw [pctMatches_cons _ hne, pctDecodeRaw_cons _ hne, hc, ih.1, ih.2]
    exact ⟨rfl, rfl⟩
  | esc h1 h2 _ ih =>
    rw [pctMatches_esc, pctDecodeRaw_esc, h1, h2, ih.1, ih.2]
    exact ⟨rfl, rfl⟩

theorem pctSpec_of_matches : ∀ s, pctMatches s = true → PctSpec s (pctDecodeRaw s) := by
  intro s
  induction s using pctMatches.induct with
  | case1 => intro _; exact .nil
  | case2 c1 c2 rest ih =>
    intro hm
    rw [pctMatches_esc] at hm
    simp only [Bool.and_eq_true] at hm
    rw [pctDecodeRaw_esc]
    exact .esc hm.1.1 hm.1.2 (ih hm.2)
  | case3 rest hshape =>
    intro hm
    exfalso
    rcases rest with - | ⟨c1, - | ⟨c2, r⟩⟩
    · simp [pctMatches] at hm
    · simp [pctMatches] at hm
    · exact hshape c1 c2 r rfl
  | case4 c rest hne ih =>
    intro hm
    rw [pctMatches_cons _ hne] at hm
    simp only [Bool.and_eq_true] at hm
    rw [pctDecodeRaw_cons _ hne]
    exact .unres hm.1 (ih hm.2)

/-- C6: `pct_decode` fails (with `Error("malformed data")`) exactly when the
input does not match the whole-string pattern
`^(?:[A-Za-z0-9-._~]|%[0-9A-Fa-f]{2})*$`, and on a match it returns exactly
the concatenation of one byte per unreserved character (its ASCII code) and
per `%XX` triplet (the byte with hex value `XX`); no partial decoding ever
escapes in the failure case. -/
theorem C6_pct_decode_characterisation (s : List Char) :
    (pct_decode s = Except.error (JsErr.error "malformed data") ↔ ¬ ∃ bs, PctSpec s bs) ∧
    (∀ bs, pct_decode s = Except.ok bs ↔ PctSpec s bs) := by
  constructor
  · constructor
    · rintro he ⟨bs, hbs⟩
      rw [pct_decode, if_pos hbs.matches_raw.1] at he
      exact Except.noConfusion he
    · intro hne
      rw [pct_decode]
      cases hm : pctMatches s with
      | false => simp
      | true => exact absurd ⟨_, pctSpec_of_matches s hm⟩ hne
  · intro bs
    constructor
    · intro hok
      rw [pct_decode] at hok
      cases hm : pctMatches s with
      | false => rw [hm] at hok; simp at hok
      | true =>
        rw [hm] at hok
        simp only [if_pos, Except.ok.injEq] at hok
        rw [← hok]
        exact pctSpec_of_matches s hm
    · intro hbs
      rw [pct_decode, if_pos hbs.matches_raw.1, hbs.matches_raw.2]

/-! ### Base64 lemmas -/

theorem charToSextet_sextetToChar : ∀ n, n < 64 →
    charToSextet (sextetToChar n) = some n := by decide

theorem isB64Char_sextetToChar : ∀ n, n < 64 → isB64Char (sextetToChar n) = true := by decide

theorem charToSextet_pad : charToSextet '=' = none := by decide

theorem b64matches_cons {c : Char} (rest : List Char) (h : isB64Char c = true) :
    b64matches (c :: rest) = b64matches rest := by
  rw [b64matches.eq_def]
  simp [h]

theorem base64_encode_length (bs : List Nat) : (base64_encode bs).length % 4 = 0 := by
  induction bs using base64_encode.induct with
  | case1 => rfl
  | case2 b1 => simp [base64_encode]
  | case3 b1 b2 => simp [base64_encode]
  | case4 b1 b2 b3 rest ih =>
    rw [base64_encode]
    simp only [List.length_cons]
    omega

theorem b64matches_encode (bs : List Nat) (h : ∀ b ∈ bs, b < 256) :
    b64matches (base64_encode bs) = true := by
  induction bs using base64_encode.induct with
  | case1 => rfl
  | case2 b1 =>
    have hb : b1 < 256 := h b1 (by simp)
    rw [base64_encode, b64matches_cons _ (isB64Char_sextetToChar _ (by omega)),
      b64matches_cons _ (isB64Char_sextetToChar _ (by omega))]
    decide
  | case3 b1 b2 =>
    have hb1 : b1 < 256 := h b1 (by simp)
    have hb2 : b2 < 256 := h b2 (by simp)
    rw [base64_encode, b64matches_cons _ (isB64Char_sextetToChar _ (by omega)),
      b64matches_cons _ (isB64Char_sextetToChar _ (by omega)),
      b64matches_cons _ (isB64Char_sextetToChar _ (by omega))]
    decide
  | case4 b1 b2 b3 rest ih =>
    have hb1 : b1 < 256 := h b1 (by simp)
    have hb2 : b2 < 256 := h b2 (by simp)
    have hb3 : b3 < 256 := h b3 (by simp)
    rw [base64_encode, b64matches_cons _ (isB64Char_sextetToChar _ (by omega)),
      b64matches_cons _ (isB64Char_sextetToChar _ (by omega)),
      b64matches_cons _ (isB64Char_sextetToChar _ (by omega)),
      b64matches_cons _ (isB64Char_sextetToChar _ (by omega))]
    exact ih fun x hx => h x (by simp [hx])

theorem b64raw_encode (bs : List Nat) (h : ∀ b ∈ bs, b < 256) :
    b64raw (base64_encode bs) = bs := by
  induction bs using base64_encode.induct with
  | case1 => rfl
  | case2 b1 =>
    have hb : b1 < 256 := h b1 (by simp)
    rw [base64_encode]
    unfold b64raw
    rw [List.filterMap_cons, charToSextet_sextetToChar _ (by omega : b1 / 4 < 64)]
    rw [List.filterMap_cons, charToSextet_sextetToChar _ (by omega : b1 % 4 * 16 < 64)]
    simp only [List.filterMap_cons, charToSextet_pad, List.filterMap_nil]
    simp only [List.flatMap_cons, List.flatMap_nil, bits6, List.cons_append,
      List.nil_append, List.append_nil]
    rw [bytesFromBits]
    simp only [List.cons.injEq, and_true]
    constructor
    · omega
    · rfl
  | case3 b1 b2 =>
    have hb1 : b1 < 256 := h b1 (by simp)
    have hb2 : b2 < 256 := h b2 (by simp)
    rw [base64_encode]
    unfold b64raw
    rw [List.filterMap_cons, charToSextet_sextetToChar _ (by omega : b1 / 4 < 64)]
    rw [List.filterMap_cons,
      charToSextet_sextetToChar _ (by omega : b1 % 4 * 16 + b2 / 16 < 64)]
    rw [List.filterMap_cons, charToSextet_sextetToChar _ (by omega : b2 % 16 * 4 < 64)]
    simp only [List.filterMap_cons, charToSextet_pad, List.filterMap_nil]
    simp only [List.flatMap_cons, List.flatMap_nil, bits6, List.cons_append,
      List.nil_append, List.append_nil]
    rw [bytesFromBits, bytesFromBits]
    simp only [List.cons.injEq, and_true]
    refine ⟨by omega, by omega, rfl⟩
  | case4 b1 b2 b3 rest ih =>
    have hb1 : b1 < 256 := h b1 (by simp)
    have hb2 : b2 < 256 := h b2 (by simp)
    have hb3 : b3 < 256 := h b3 (by simp)
    have ih2 := ih fun x hx => h x (by simp [hx])
    rw [base64_encode]
    unfold b64raw at ih2 ⊢
    rw [List.filterMap_cons, charToSextet_sextetToChar _ (by omega : b1 / 4 < 64)]
    rw [List.filterMap_cons,
      charToSextet_sextetToChar _ (by omega : b1 % 4 * 16 + b2 / 16 < 64)]
    rw [List.filterMap_cons,
      charToSextet_sextetToChar _ (by omega : b2 % 16 * 4 + b3 / 64 < 64)]
    rw [List.filterMap_cons, charToSextet_sextetToChar _ (by omega : b3 % 64 < 64)]
    simp only [List.flatMap_cons, bits6, List.cons_append, List.nil_append]
    rw [bytesFromBits, bytesFromBits, bytesFromBits]
    simp only [List.cons.injEq]
    refine ⟨by omega, by omega, by omega, ih2⟩

/-- Base64 round-trip, the shared workhorse: the canonical encoding of any
byte sequence passes `base64_decode`'s validation and decodes back to the
same bytes. -/
theorem b64_roundtrip (bs : List Nat) (h : ∀ b ∈ bs, b < 256) :
    base64_decode (base64_encode bs) = .ok bs := by
  rw [base64_decode, if_pos ⟨base64_encode_length bs, b64matches_encode bs h⟩,
    b64raw_encode bs h]

/-- C5: for every byte sequence `bs`, base64-decoding the base64-encoding
returns exactly `bs`: the encoding always passes the length-multiple-of-4 and
alphabet/padding validation and the decode inverts the encode. -/
theorem C5_base64_decode_base64_encode (bs : List Nat) (h : ∀ b ∈ bs, b < 256) :
    base64_decode (base64_encode bs) = Except.ok bs := b64_roundtrip bs h

theorem C5_witness :
    (∀ b ∈ [104, 101, 108, 108, 111], b < 256) ∧
      base64_decode (base64_encode [104, 101, 108, 108, 111]) =
        Except.ok [104, 101, 108, 108, 111] :=
  ⟨by decide, C5_base64_decode_base64_encode [104, 101, 108, 108, 111] (by decide)⟩

/-- C7: `base64_decode` fails (with `Error("malformed data")`) exactly when
the length is not a multiple of 4 or the string does not match
`^[A-Za-z0-9+/]*=?=?$`; in particular `base64_decode "abc"` fails. -/
theorem C7_base64_decode_error_iff (s : List Char) :
    (base64_decode s = Except.error (JsErr.error "malformed data") ↔
      ¬ (s.length % 4 = 0 ∧ b64matches s = true)) ∧
    base64_decode (['a', 'b', 'c']) = Except.error (JsErr.error "malformed data") := by
  refine ⟨?_, by rw [base64_decode, if_neg]; rintro ⟨h3, -⟩; simp at h3⟩
  rw [base64_decode]
  by_cases hc : s.length % 4 = 0 ∧ b64matches s = true
  · rw [if_pos hc]
    simp [hc]
  · rw [if_neg hc]
    simp [hc]

/-! ### Lemmas about `jsSplit` -/

theorem jsSplit_cons_sep (sep : Char) (rest : List Char) :
    jsSplit sep (sep :: rest) = [] :: jsSplit sep rest := by
  rw [jsSplit.eq_def]
  simp

theorem jsSplit_cons_ne {sep c : Char} (rest : List Char) (hne : c ≠ sep) :
    jsSplit sep (c :: rest) =
      match jsSplit sep rest with
      | [] => [[c]]
      | t :: ts => (c :: t) :: ts := by
  rw [jsSplit.eq_def]
  simp [hne]

theorem jsSplit_ne_nil (sep : Char) (l : List Char) : jsSplit sep l ≠ [] := by
  induction l using jsSplit.induct sep with
  | case1 => simp [jsSplit]
  | case2 rest ih => rw [jsSplit_cons_sep]; simp
  | case3 c rest hne hnil ih => exact absurd hnil ih
  | case4 c rest hne t ts heq ih => rw [jsSplit_cons_ne rest hne, heq]; simp

theorem jsSplit_length (sep : Char) (l : List Char) :
    (jsSplit sep l).length = l.count sep + 1 := by
  induction l using jsSplit.induct sep with
  | case1 => simp [jsSplit]
  | case2 rest ih =>
    rw [jsSplit_cons_sep]
    simp only [List.length_cons, List.count_cons_self, ih]
  | case3 c rest hne hnil ih => exact absurd hnil (jsSplit_ne_nil sep rest)
  | case4 c rest hne t ts heq ih =>
    rw [jsSplit_cons_ne rest hne, heq]
    rw [heq] at ih
    simp only [List.length_cons] at ih ⊢
    rw [List.count_cons_of_ne (Ne.symm hne)]
    omega

/-- `pct_decode` either succeeds with the raw decoding or fails with exactly
`Error("malformed data")`. -/
theorem pct_decode_eq (s : List Char) :
    pct_decode s = .ok (pctDecodeRaw s) ∨
      pct_decode s = .error (.error "malformed data") := by
  rw [pct_decode]
  by_cases h : pctMatches s = true
  · left; rw [if_pos h]
  · right; rw [if_neg h]

/-! ### C3: the parser can raise a TypeError -/

/-- C3 (evidence of the code bug): on the input `"data:base64,A"` the
mediatype token list is exactly `["base64"]`, the `base64` marker is popped,
`mediatype.shift()` returns `undefined`, and line 136 (`info.mime.length`)
raises a runtime `TypeError` — not the `MalformedInput` grammar `Error` the
claim allows. -/
theorem C3_typeError_on_bare_base64_token :
    parseSync (("data:base64,A").toList) =
      Except.error (JsErr.typeError "Cannot read properties of undefined (reading 'length')") := rfl

/-! ### C2: mime emptiness after a successful parse -/

/-- C2 (counterexample): it is not true that every successful parse returns a
non-empty mime string — `parseSync "data:;a=b,x"` succeeds (mime token empty,
parameters `{a: "b"}` non-empty and without `charset`, so no defaulting fires)
and its `mime` field is the empty string. -/
theorem C2_counterexample :
    ¬ (∀ (s : List Char) (i : Info), parseSync s = Except.ok i → i.mime ≠ []) := by
  intro h
  exact h (("data:;a=b,x").toList) ⟨false, [], [(['a'], ['b'])], JsData.buf [120]⟩ rfl rfl

/-- The defaulting step always yields either a non-empty mime or a non-empty
parameter list without a `charset` key. -/
theorem applyDefaults_prop (m : List Char) (ps : List (List Char × List Char)) :
    (applyDefaults m ps).1 ≠ [] ∨
      ((applyDefaults m ps).2 ≠ [] ∧
        lookupKey (("charset").toList) (applyDefaults m ps).2 = none) := by
  unfold applyDefaults
  by_cases h1 : m = [] ∧ ps = []
  · rw [if_pos h1]; left; decide
  · rw [if_neg h1]
    by_cases h2 : m = [] ∧ jsIn (("charset").toList) ps = true
    · rw [if_pos h2]; left
      show ("text/plain").toList ≠ []
      decide
    · rw [if_neg h2]
      by_cases hm : m = []
      · right
        have hps : ps ≠ [] := fun he => h1 ⟨hm, he⟩
        refine ⟨hps, ?_⟩
        cases hlk : lookupKey (("charset").toList) ps with
        | none => rfl
        | some v =>
          exfalso
          apply h2
          refine ⟨hm, ?_⟩
          unfold jsIn
          rw [hlk]
          simp
      · left; exact hm

/-- Any successful parse carries the mime and parameters produced by the
defaulting step. -/
theorem parseSync_ok_fields {s : List Char} {i : Info} (h : parseSync s = Except.ok i) :
    ∃ m ps, i.mime = (applyDefaults m ps).1 ∧ i.parameters = (applyDefaults m ps).2 := by
  unfold parseSync at h
  split at h
  · exact Except.noConfusion h
  · split at h
    · exact Except.noConfusion h
    · split at h
      · exact Except.noConfusion h
      · split at h
        · exact Except.noConfusion h
        · injection h with h2
          subst h2
          exact ⟨_, _, rfl, rfl⟩

/-- C2 (amended): after a successful parse the `mime` field is non-empty,
unless the parameter mapping is non-empty and contains no `charset` key (the
one defaulting gap), in which case `mime` may be the empty string. -/
theorem C2_mime_after_parse (s : List Char) (i : Info) (h : parseSync s = Except.ok i) :
    i.mime ≠ [] ∨
      (i.parameters ≠ [] ∧ lookupKey (("charset").toList) i.parameters = none) := by
  obtain ⟨m, ps, hm, hp⟩ := parseSync_ok_fields h
  rw [hm, hp]
  exact applyDefaults_prop m ps

theorem C2_witness :
    (Info.mk false ['x'] [] (JsData.buf [121])).mime ≠ [] ∨
      ((Info.mk false ['x'] [] (JsData.buf [121])).parameters ≠ [] ∧
        lookupKey (("charset").toList)
          (Info.mk false ['x'] [] (JsData.buf [121])).parameters = none) :=
  C2_mime_after_parse (("data:x,y").toList) (Info.mk false ['x'] [] (JsData.buf [121])) rfl

/-! ### C8: the defaulting rules -/

/-- C8: when the extracted mime token is empty, an empty parameter mapping
becomes `text/plain` with `charset=US-ASCII`, and a mapping that already has a
`charset` key gets mime `text/plain` with the parameters untouched; in
particular `parseSync "data:,hello"` returns mime `text/plain`, parameters
`{charset: "US-ASCII"}` and the bytes of `"hello"`. -/
theorem C8_defaulting :
    (∀ ps : List (List Char × List Char), ps = [] →
        applyDefaults [] ps =
          (("text/plain").toList, [(("charset").toList, ("US-ASCII").toList)])) ∧
    (∀ ps : List (List Char × List Char), lookupKey (("charset").toList) ps ≠ none →
        applyDefaults [] ps = (("text/plain").toList, ps)) ∧
    parseSync (("data:,hello").toList) =
      Except.ok ⟨false, ("text/plain").toList,
        [(("charset").toList, ("US-ASCII").toList)], JsData.buf [104, 101, 108, 108, 111]⟩ := by
  refine ⟨?_, ?_, rfl⟩
  · rintro ps rfl; rfl
  · intro ps h
    have hps : ps ≠ [] := by rintro rfl; exact h rfl
    have hjs : jsIn (("charset").toList) ps = true := by
      unfold jsIn
      cases hlk : lookupKey (("charset").toList) ps with
      | none => exact absurd hlk h
      | some v => simp
    unfold applyDefaults
    rw [if_neg (by rintro ⟨-, h2⟩; exact hps h2), if_pos ⟨rfl, hjs⟩]

theorem C8_witness :
    applyDefaults [] [] =
        (("text/plain").toList, [(("charset").toList, ("US-ASCII").toList)]) ∧
      applyDefaults [] [(("charset").toList, ("utf-8").toList)] =
        (("text/plain").toList, [(("charset").toList, ("utf-8").toList)]) :=
  ⟨C8_defaulting.1 [] rfl,
   C8_defaulting.2.1 [(("charset").toList, ("utf-8").toList)] (by decide)⟩

/-! ### C9: processing of one parameter token -/

theorem parseParam_two {a v tok : List Char} (acc : List (List Char × List Char))
    (hsp : jsSplit '=' tok = [a, v]) :
    parseParam tok acc =
      match pct_decode a with
      | .error e => .error e
      | .ok ab =>
        match pct_decode v with
        | .error e => .error e
        | .ok vb => .ok (insertParam (utf8Decode ab) (utf8Decode vb) acc) := by
  unfold parseParam
  rw [hsp]

theorem parseParam_invalid {tok : List Char} (acc : List (List Char × List Char))
    (h : (jsSplit '=' tok).length ≠ 2) :
    parseParam tok acc = Except.error (JsErr.error "invalid dataurl parameter") := by
  unfold parseParam
  rcases hsp : jsSplit '=' tok with - | ⟨a, - | ⟨v, - | ⟨w, r⟩⟩⟩
  · exact absurd hsp (jsSplit_ne_nil '=' tok)
  · rfl
  · rw [hsp] at h
    simp at h
  · rfl

/-- C9: processing one parameter token of the mediatype raises
`Error("invalid dataurl parameter")` exactly when the token does not contain
exactly one `=` character (equivalently, splitting on `=` does not give
exactly two parts); when it succeeds the attribute and value inserted are the
two independently percent-decoded parts, read back as strings. -/
theorem C9_parameter_token (tok : List Char) (acc : List (List Char × List Char)) :
    (parseParam tok acc = Except.error (JsErr.error "invalid dataurl parameter") ↔
      tok.count '=' ≠ 1) ∧
    (∀ a v, jsSplit '=' tok = [a, v] →
      ∀ ab vb, pct_decode a = Except.ok ab → pct_decode v = Except.ok vb →
        parseParam tok acc = Except.ok (insertParam (utf8Decode ab) (utf8Decode vb) acc)) := by
  have hlen := jsSplit_length '=' tok
  constructor
  · constructor
    · intro herr
      intro hcnt
      rcases hsp : jsSplit '=' tok with - | ⟨a, - | ⟨v, - | ⟨w, r⟩⟩⟩
      · exact absurd hsp (jsSplit_ne_nil '=' tok)
      · rw [hsp] at hlen; simp at hlen; omega
      · rw [parseParam_two acc hsp] at herr
        rcases pct_decode_eq a with ha | ha <;> rw [ha] at herr
        · rcases pct_decode_eq v with hv | hv <;> rw [hv] at herr
          · exact Except.noConfusion herr
          · simp only [Except.error.injEq, JsErr.error.injEq] at herr
            exact absurd herr (by decide)
        · simp only [Except.error.injEq, JsErr.error.injEq] at herr
          exact absurd herr (by decide)
      · rw [hsp] at hlen; simp at hlen; omega
    · intro hcnt
      apply parseParam_invalid
      omega
  · rintro a v hsp ab vb hab hvb
    rw [parseParam_two acc hsp, hab, hvb]

theorem C9_witness :
    parseParam ['a', '=', 'b'] [] =
      Except.ok (insertParam (utf8Decode [97]) (utf8Decode [98]) []) :=
  (C9_parameter_token ['a', '=', 'b'] []).2 ['a'] ['b'] rfl [97] [98] rfl rfl

/-! ### C10: the composer is total on Buffer payloads -/

/-- C10: `composeSync` raises a `TypeError` exactly when the `data` field is
not a Buffer; for every record whose `data` is a Buffer it returns a string
without raising, whatever the mime, parameters and payload are; in particular
composing `{mime: "image/png", parameters: {}, base64: true, data: b}` yields
a string beginning with `"data:image/png;base64,"`. -/
theorem C10_compose_totality :
    (∀ i : Info, i.data = JsData.notBuf →
        composeSync i = Except.error (JsErr.typeError "expected info.data to be a Buffer")) ∧
    (∀ (i : Info) (b : List Nat), i.data = JsData.buf b →
        composeSync i = Except.ok (("data:").toList ++
          joinSep ';' (i.mime :: i.parameters.map paramToken) ++
          (if i.base64 then (";base64").toList else []) ++
          ',' :: (if i.base64 then base64_encode b else pct_encode b))) ∧
    (∀ b : List Nat, composeSync ⟨true, ("image/png").toList, [], JsData.buf b⟩ =
        Except.ok ((("data:image/png;base64,").toList) ++ base64_encode b)) := by
  refine ⟨?_, ?_, fun b => rfl⟩
  · rintro ⟨b64, m, ps, d⟩ h
    subst h
    rfl
  · rintro ⟨b64, m, ps, d⟩ b h
    subst h
    rfl

theorem C10_witness :
    composeSync ⟨false, [], [], JsData.notBuf⟩ =
      Except.error (JsErr.typeError "expected info.data to be a Buffer") :=
  C10_compose_totality.1 ⟨false, [], [], JsData.notBuf⟩ rfl

/-! ### UTF-8 round-trip -/

theorem utf8Split_len (b : Nat) (rest : List Nat) :
    (utf8Split b rest).2.length ≤ rest.length := by
  unfold utf8Split
  repeat' split
  all_goals simp_all
  all_goals omega


theorem utf8EncodeChar_lt (c : Char) : ∀ x ∈ utf8EncodeChar c, x < 256 := by
  have hv : Nat.isValidChar c.toNat := c.valid
  have hb : c.toNat < 1114112 := by rcases hv with h | ⟨-, h⟩ <;> omega
  unfold utf8EncodeChar
  by_cases h1 : c.toNat < 128
  · rw [if_pos h1]; intro x hx; simp at hx; omega
  · rw [if_neg h1]
    by_cases h2 : c.toNat < 2048
    · rw [if_pos h2]; intro x hx; simp at hx; rcases hx with rfl | rfl <;> omega
    · rw [if_neg h2]
      by_cases h3 : c.toNat < 65536
      · rw [if_pos h3]; intro x hx; simp at hx; rcases hx with rfl | rfl | rfl <;> omega
      · rw [if_neg h3]; intro x hx; simp at hx; rcases hx with rfl | rfl | rfl | rfl <;> omega

theorem utf8Encode_lt (s : List Char) : ∀ x ∈ utf8Encode s, x < 256 := by
  intro x hx
  unfold utf8Encode at hx
  rw [List.mem_flatMap] at hx
  obtain ⟨c, -, hc⟩ := hx
  exact utf8EncodeChar_lt c x hc

theorem utf8DecodeAux_irrel : ∀ (fuel fuel2 : Nat) (bs : List Nat),
    bs.length ≤ fuel → bs.length ≤ fuel2 →
    utf8DecodeAux fuel bs = utf8DecodeAux fuel2 bs := by
  intro fuel
  induction fuel with
  | zero =>
    intro fuel2 bs h1 h2
    have : bs = [] := List.length_eq_zero.mp (by omega)
    subst this
    cases fuel2 <;> rfl
  | succ n ih =>
    intro fuel2 bs h1 h2
    cases bs with
    | nil => cases fuel2 <;> rfl
    | cons b rest =>
      cases fuel2 with
      | zero => simp at h2
      | succ m =>
        show (utf8Split b rest).1 :: utf8DecodeAux n (utf8Split b rest).2 =
          (utf8Split b rest).1 :: utf8DecodeAux m (utf8Split b rest).2
        have hl := utf8Split_len b rest
        simp only [List.length_cons] at h1 h2
        exact congrArg _ (ih m _ (by omega) (by omega))

theorem utf8Decode_cons (b : Nat) (rest : List Nat) :
    utf8Decode (b :: rest) = (utf8Split b rest).1 :: utf8Decode ((utf8Split b rest).2) := by
  unfold utf8Decode
  rw [List.length_cons]
  show (utf8Split b rest).1 :: utf8DecodeAux rest.length (utf8Split b rest).2 = _
  exact congrArg _ (utf8DecodeAux_irrel rest.length _ _ (utf8Split_len b rest) le_rfl)

theorem utf8Split_one {b : Nat} (rest : List Nat) (h : b < 128) :
    utf8Split b rest = (Char.ofNat b, rest) := by
  unfold utf8Split
  rw [if_pos h]

theorem utf8Split_two {b b2 : Nat} (r2 : List Nat)
    (hb : 194 ≤ b ∧ b < 224) (h2 : 128 ≤ b2 ∧ b2 < 192) :
    utf8Split b (b2 :: r2) = (Char.ofNat ((b - 192) * 64 + (b2 - 128)), r2) := by
  unfold utf8Split
  rw [if_neg (by omega), if_pos hb]
  show (if 128 ≤ b2 ∧ b2 < 192 then (Char.ofNat ((b - 192) * 64 + (b2 - 128)), r2)
    else (replChar, b2 :: r2)) = (Char.ofNat ((b - 192) * 64 + (b2 - 128)), r2)
  exact if_pos h2

theorem utf8Split_three {b b2 b3 : Nat} (r3 : List Nat)
    (hb : 224 ≤ b ∧ b < 240) (h2 : 128 ≤ b2 ∧ b2 < 192) (h3 : 128 ≤ b3 ∧ b3 < 192)
    (hv : Nat.isValidChar ((b - 224) * 4096 + (b2 - 128) * 64 + (b3 - 128))) :
    utf8Split b (b2 :: b3 :: r3) =
      (Char.ofNat ((b - 224) * 4096 + (b2 - 128) * 64 + (b3 - 128)), r3) := by
  unfold utf8Split
  rw [if_neg (by omega), if_neg (by omega), if_pos hb]
  show (if (128 ≤ b2 ∧ b2 < 192) ∧ (128 ≤ b3 ∧ b3 < 192) then
      ((if Nat.isValidChar ((b - 224) * 4096 + (b2 - 128) * 64 + (b3 - 128)) then
          Char.ofNat ((b - 224) * 4096 + (b2 - 128) * 64 + (b3 - 128))
        else replChar), r3)
    else (replChar, b2 :: b3 :: r3)) = _
  rw [if_pos ⟨h2, h3⟩, if_pos hv]

theorem utf8Split_four {b b2 b3 b4 : Nat} (r4 : List Nat)
    (hb : 240 ≤ b ∧ b < 245) (h2 : 128 ≤ b2 ∧ b2 < 192) (h3 : 128 ≤ b3 ∧ b3 < 192)
    (h4 : 128 ≤ b4 ∧ b4 < 192)
    (hv : Nat.isValidChar ((b - 240) * 262144 + (b2 - 128) * 4096 + (b3 - 128) * 64 + (b4 - 128))) :
    utf8Split b (b2 :: b3 :: b4 :: r4) =
      (Char.ofNat ((b - 240) * 262144 + (b2 - 128) * 4096 + (b3 - 128) * 64 + (b4 - 128)), r4) := by
  unfold utf8Split
  rw [if_neg (by omega), if_neg (by omega), if_neg (by omega), if_pos hb]
  show (if (128 ≤ b2 ∧ b2 < 192) ∧ (128 ≤ b3 ∧ b3 < 192) ∧ (128 ≤ b4 ∧ b4 < 192) then
      ((if Nat.isValidChar
            ((b - 240) * 262144 + (b2 - 128) * 4096 + (b3 - 128) * 64 + (b4 - 128)) then
          Char.ofNat ((b - 240) * 262144 + (b2 - 128) * 4096 + (b3 - 128) * 64 + (b4 - 128))
        else replChar), r4)
    else (replChar, b2 :: b3 :: b4 :: r4)) = _
  rw [if_pos ⟨h2, h3, h4⟩, if_pos hv]

theorem utf8Decode_encodeChar (c : Char) (rest : List Nat) :
    utf8Decode (utf8EncodeChar c ++ rest) = c :: utf8Decode rest := by
  have hv : Nat.isValidChar c.toNat := c.valid
  have hb : c.toNat < 1114112 := by rcases hv with h | ⟨-, h⟩ <;> omega
  unfold utf8EncodeChar
  by_cases h1 : c.toNat < 128
  · rw [if_pos h1]
    show utf8Decode (c.toNat :: rest) = c :: utf8Decode rest
    rw [utf8Decode_cons, utf8Split_one rest h1, Char.ofNat_toNat]
  · rw [if_neg h1]
    by_cases h2 : c.toNat < 2048
    · rw [if_pos h2]
      show utf8Decode ((192 + c.toNat / 64) :: (128 + c.toNat % 64) :: rest) =
        c :: utf8Decode rest
      rw [utf8Decode_cons, utf8Split_two rest (by omega) (by omega)]
      rw [show (192 + c.toNat / 64 - 192) * 64 + (128 + c.toNat % 64 - 128) = c.toNat by omega,
        Char.ofNat_toNat]
    · rw [if_neg h2]
      by_cases h3 : c.toNat < 65536
      · rw [if_pos h3]
        show utf8Decode ((224 + c.toNat / 4096) :: (128 + c.toNat / 64 % 64) ::
            (128 + c.toNat % 64) :: rest) = c :: utf8Decode rest
        rw [utf8Decode_cons, utf8Split_three rest (by omega) (by omega) (by omega)
          (by rw [show (224 + c.toNat / 4096 - 224) * 4096 + (128 + c.toNat / 64 % 64 - 128) * 64 +
            (128 + c.toNat % 64 - 128) = c.toNat by omega]; exact hv)]
        rw [show (224 + c.toNat / 4096 - 224) * 4096 + (128 + c.toNat / 64 % 64 - 128) * 64 +
          (128 + c.toNat % 64 - 128) = c.toNat by omega, Char.ofNat_toNat]
      · rw [if_neg h3]
        show utf8Decode ((240 + c.toNat / 262144) :: (128 + c.toNat / 4096 % 64) ::
            (128 + c.toNat / 64 % 64) :: (128 + c.toNat % 64) :: rest) = c :: utf8Decode rest
        rw [utf8Decode_cons, utf8Split_four rest (by omega) (by omega) (by omega) (by omega)
          (by rw [show (240 + c.toNat / 262144 - 240) * 262144 +
            (128 + c.toNat / 4096 % 64 - 128) * 4096 +
            (128 + c.toNat / 64 % 64 - 128) * 64 + (128 + c.toNat % 64 - 128) = c.toNat by omega]
              exact hv)]
        rw [show (240 + c.toNat / 262144 - 240) * 262144 +
          (128 + c.toNat / 4096 % 64 - 128) * 4096 +
          (128 + c.toNat / 64 % 64 - 128) * 64 + (128 + c.toNat % 64 - 128) = c.toNat by omega,
          Char.ofNat_toNat]

/-- UTF-8 round-trip: reading back the bytes of a JS string recovers it. -/
theorem utf8_roundtrip (s : List Char) : utf8Decode (utf8Encode s) = s := by
  induction s with
  | nil => rfl
  | cons c rest ih =>
    show utf8Decode (utf8EncodeChar c ++ utf8Encode rest) = c :: rest
    rw [utf8Decode_encodeChar, ih]

/-! ### Character-class facts about encoder outputs -/

theorem isB64Char_props {c : Char} (h : isB64Char c = true) :
    c ≠ ',' ∧ c ≠ ';' ∧ isLineTerm c = false := by
  refine ⟨?_, ?_, ?_⟩
  · rintro rfl; exact absurd h (by decide)
  · rintro rfl; exact absurd h (by decide)
  · cases hl : isLineTerm c with
    | false => rfl
    | true =>
      unfold isLineTerm at hl
      rcases of_decide_eq_true hl with rfl | rfl | rfl | rfl <;> exact absurd h (by decide)

theorem pct_encode_chars {bs : List Nat} (h : ∀ b ∈ bs, b < 256) :
    ∀ c ∈ pct_encode bs, isUnreserved c = true ∨ c = '%' ∨ isHexDigit c = true := by
  induction bs with
  | nil => intro c hc; simp [pct_encode] at hc
  | cons b rest ih =>
    have hb : b < 256 := h b (List.mem_cons_self b rest)
    have ih2 := ih fun x hx => h x (List.mem_cons_of_mem b hx)
    intro c hc
    by_cases hu : isUnreserved (Char.ofNat b) = true
    · rw [pct_encode_cons_unres rest hu] at hc
      rcases List.mem_cons.mp hc with rfl | hc2
      · exact Or.inl hu
      · exact ih2 c hc2
    · rw [pct_encode_cons_esc rest hu] at hc
      rcases List.mem_cons.mp hc with rfl | hc2
      · exact Or.inr (Or.inl rfl)
      rcases List.mem_cons.mp hc2 with rfl | hc3
      · exact Or.inr (Or.inr (hexCharLower_spec (b / 16) (by omega)).1)
      rcases List.mem_cons.mp hc3 with rfl | hc4
      · exact Or.inr (Or.inr (hexCharLower_spec (b % 16) (by omega)).1)
      · exact ih2 c hc4

theorem pct_encode_safe {bs : List Nat} (h : ∀ b ∈ bs, b < 256) :
    ∀ c ∈ pct_encode bs, c ≠ ',' ∧ c ≠ ';' ∧ c ≠ '=' ∧ isLineTerm c = false := by
  intro c hc
  rcases pct_encode_chars h c hc with hu | rfl | hx
  · obtain ⟨-, h1, h2, h3, h4⟩ := isUnreserved_props hu
    exact ⟨h2, h1, h3, h4⟩
  · exact ⟨by decide, by decide, by decide, by decide⟩
  · obtain ⟨-, h1, h2, h3, h4⟩ := isHexDigit_props hx
    exact ⟨h2, h1, h3, h4⟩

theorem b64_encode_chars {bs : List Nat} (h : ∀ b ∈ bs, b < 256) :
    ∀ c ∈ base64_encode bs, isB64Char c = true ∨ c = '=' := by
  induction bs using base64_encode.induct with
  | case1 => intro c hc; simp [base64_encode] at hc
  | case2 b1 =>
    have hb : b1 < 256 := h b1 (by simp)
    intro c hc
    simp only [base64_encode, List.mem_cons, List.not_mem_nil, or_false] at hc
    rcases hc with rfl | rfl | rfl | rfl
    · exact Or.inl (isB64Char_sextetToChar _ (by omega))
    · exact Or.inl (isB64Char_sextetToChar _ (by omega))
    · exact Or.inr rfl
    · exact Or.inr rfl
  | case3 b1 b2 =>
    have hb1 : b1 < 256 := h b1 (by simp)
    have hb2 : b2 < 256 := h b2 (by simp)
    intro c hc
    simp only [base64_encode, List.mem_cons, List.not_mem_nil, or_false] at hc
    rcases hc with rfl | rfl | rfl | rfl
    · exact Or.inl (isB64Char_sextetToChar _ (by omega))
    · exact Or.inl (isB64Char_sextetToChar _ (by omega))
    · exact Or.inl (isB64Char_sextetToChar _ (by omega))
    · exact Or.inr rfl
  | case4 b1 b2 b3 rest ih =>
    have hb1 : b1 < 256 := h b1 (by simp)
    have hb2 : b2 < 256 := h b2 (by simp)
    have hb3 : b3 < 256 := h b3 (by simp)
    have ih2 := ih fun x hx => h x (by simp [hx])
    intro c hc
    rw [base64_encode] at hc
    rcases List.mem_cons.mp hc with rfl | hc1
    · exact Or.inl (isB64Char_sextetToChar _ (by omega))
    rcases List.mem_cons.mp hc1 with rfl | hc2
    · exact Or.inl (isB64Char_sextetToChar _ (by omega))
    rcases List.mem_cons.mp hc2 with rfl | hc3
    · exact Or.inl (isB64Char_sextetToChar _ (by omega))
    rcases List.mem_cons.mp hc3 with rfl | hc4
    · exact Or.inl (isB64Char_sextetToChar _ (by omega))
    · exact ih2 c hc4

theorem b64_encode_safe {bs : List Nat} (h : ∀ b ∈ bs, b < 256) :
    ∀ c ∈ base64_encode bs, isLineTerm c = false := by
  intro c hc
  rcases b64_encode_chars h c hc with hb | rfl
  · exact (isB64Char_props hb).2.2
  · decide

/-! ### Splitting and joining lemmas -/

theorem not_mem_head_tail {a c : Char} {t : List Char} (h : a ∉ c :: t) :
    a ≠ c ∧ a ∉ t :=
  ⟨fun he => h (he ▸ List.mem_cons_self c t), fun hm => h (List.mem_cons_of_mem c hm)⟩

theorem splitFirst_append {sep : Char} (T D : List Char) (h : sep ∉ T) :
    splitFirst sep (T ++ sep :: D) = some (T, D) := by
  induction T with
  | nil =>
    show splitFirst sep (sep :: D) = some ([], D)
    rw [splitFirst.eq_def]
    simp
  | cons c t ih =>
    obtain ⟨h1, h2⟩ := not_mem_head_tail h
    rw [List.cons_append, splitFirst.eq_def]
    simp only []
    rw [if_neg (Ne.symm h1), ih h2]
    rfl

theorem jsSplit_no_sep {sep : Char} {t : List Char} (h : sep ∉ t) : jsSplit sep t = [t] := by
  induction t with
  | nil => rfl
  | cons c t ih =>
    obtain ⟨h1, h2⟩ := not_mem_head_tail h
    rw [jsSplit_cons_ne t (Ne.symm h1), ih h2]

theorem jsSplit_append {sep : Char} {t : List Char} (rest : List Char) (h : sep ∉ t) :
    jsSplit sep (t ++ sep :: rest) = t :: jsSplit sep rest := by
  induction t with
  | nil => exact jsSplit_cons_sep sep rest
  | cons c t ih =>
    obtain ⟨h1, h2⟩ := not_mem_head_tail h
    rw [List.cons_append, jsSplit_cons_ne _ (Ne.symm h1), ih h2]

theorem jsSplit_joinSep (sep : Char) (t : List Char) (ts : List (List Char))
    (h : ∀ u ∈ t :: ts, sep ∉ u) :
    jsSplit sep (joinSep sep (t :: ts)) = t :: ts := by
  induction ts generalizing t with
  | nil => exact jsSplit_no_sep (h t (by simp))
  | cons u us ih =>
    show jsSplit sep (t ++ sep :: joinSep sep (u :: us)) = t :: u :: us
    rw [jsSplit_append _ (h t (by simp)), ih u (fun w hw => h w (List.mem_cons_of_mem t hw))]

theorem joinSep_concat (sep : Char) (t : List Char) (ts : List (List Char)) (u : List Char) :
    joinSep sep ((t :: ts) ++ [u]) = joinSep sep (t :: ts) ++ sep :: u := by
  induction ts generalizing t with
  | nil => rfl
  | cons v vs ih =>
    show t ++ sep :: joinSep sep ((v :: vs) ++ [u]) =
      (t ++ sep :: joinSep sep (v :: vs)) ++ sep :: u
    rw [ih v]
    simp [List.append_assoc]

theorem mem_joinSep {sep : Char} {ts : List (List Char)} {c : Char}
    (h : c ∈ joinSep sep ts) : c = sep ∨ ∃ t ∈ ts, c ∈ t := by
  induction ts with
  | nil => simp [joinSep] at h
  | cons t ts ih =>
    cases ts with
    | nil => exact Or.inr ⟨t, by simp, h⟩
    | cons u us =>
      rw [show joinSep sep (t :: u :: us) = t ++ sep :: joinSep sep (u :: us) from rfl] at h
      rcases List.mem_append.mp h with h1 | h2
      · exact Or.inr ⟨t, by simp, h1⟩
      rcases List.mem_cons.mp h2 with rfl | h3
      · exact Or.inl rfl
      · rcases ih h3 with h4 | ⟨w, hw, hcw⟩
        · exact Or.inl h4
        · exact Or.inr ⟨w, List.mem_cons_of_mem t hw, hcw⟩

/-! ### Association-list lemmas -/

theorem lookupKey_cons (a v : List Char) (key : List Char)
    (rest : List (List Char × List Char)) :
    lookupKey key ((a, v) :: rest) = if a = key then some v else lookupKey key rest := rfl

theorem lookupKey_append_none {key : List Char} {l1 l2 : List (List Char × List Char)}
    (h : lookupKey key l1 = none) : lookupKey key (l1 ++ l2) = lookupKey key l2 := by
  induction l1 with
  | nil => rfl
  | cons kv rest ih =>
    obtain ⟨a, v⟩ := kv
    rw [lookupKey_cons] at h
    rw [List.cons_append, lookupKey_cons]
    by_cases ha : a = key
    · rw [if_pos ha] at h; exact Option.noConfusion h
    · rw [if_neg ha] at h ⊢
      exact ih h

/-! ### Composed parameter tokens -/

theorem utf8Encode_pct_no_eq {u : List Char} : '=' ∉ pct_encode (utf8Encode u) :=
  fun hc => (pct_encode_safe (utf8Encode_lt u) '=' hc).2.2.1 rfl

theorem jsSplit_paramToken (k v : List Char) :
    jsSplit '=' (paramToken (k, v)) =
      [pct_encode (utf8Encode k), pct_encode (utf8Encode v)] := by
  unfold paramToken
  rw [jsSplit_append _ utf8Encode_pct_no_eq, jsSplit_no_sep utf8Encode_pct_no_eq]

theorem paramToken_safe (kv : List Char × List Char) :
    ∀ c ∈ paramToken kv, c ≠ ';' ∧ c ≠ ',' ∧ isLineTerm c = false := by
  obtain ⟨k, v⟩ := kv
  intro c hc
  unfold paramToken at hc
  rcases List.mem_append.mp hc with h1 | h2
  · obtain ⟨ha, hb, -, hd⟩ := pct_encode_safe (utf8Encode_lt k) c h1
    exact ⟨hb, ha, hd⟩
  rcases List.mem_cons.mp h2 with rfl | h3
  · exact ⟨by decide, by decide, by decide⟩
  · obtain ⟨ha, hb, -, hd⟩ := pct_encode_safe (utf8Encode_lt v) c h3
    exact ⟨hb, ha, hd⟩

theorem eq_mem_paramToken (kv : List Char × List Char) : '=' ∈ paramToken kv := by
  obtain ⟨k, v⟩ := kv
  unfold paramToken
  exact List.mem_append.mpr (Or.inr (List.mem_cons_self _ _))

theorem paramToken_ne_base64 (kv : List Char × List Char) :
    paramToken kv ≠ ("base64").toList := by
  intro he
  have h := eq_mem_paramToken kv
  rw [he] at h
  exact absurd h (by decide)

/-! ### `parseParams` on composed tokens -/

theorem parseParams_cons (tok : List Char) (toks : List (List Char))
    (acc : List (List Char × List Char)) :
    parseParams (tok :: toks) acc =
      match parseParam tok acc with
      | .error e => .error e
      | .ok acc2 => parseParams toks acc2 := by
  rw [parseParams]

theorem parseParam_paramToken (k v : List Char) (acc : List (List Char × List Char)) :
    parseParam (paramToken (k, v)) acc = .ok (insertParam k v acc) := by
  rw [parseParam_two acc (jsSplit_paramToken k v), pct_roundtrip _ (utf8Encode_lt k),
    pct_roundtrip _ (utf8Encode_lt v)]
  show Except.ok (insertParam (utf8Decode (utf8Encode k)) (utf8Decode (utf8Encode v)) acc) = _
  rw [utf8_roundtrip, utf8_roundtrip]

theorem parseParams_paramTokens (ps : List (List Char × List Char)) :
    ∀ acc : List (List Char × List Char),
    (ps.map Prod.fst).Nodup →
    (∀ p ∈ ps, p.1 ∉ protoProps) →
    (∀ p ∈ ps, lookupKey p.1 acc = none) →
    parseParams (ps.map paramToken) acc = .ok (acc ++ ps) := by
  induction ps with
  | nil => intro acc _ _ _; simp [parseParams]
  | cons kv rest ih =>
    obtain ⟨k, v⟩ := kv
    intro acc hnd hpr hacc
    have hk_in : lookupKey k acc = none := hacc (k, v) (List.mem_cons_self _ _)
    have hk_pr : k ∉ protoProps := hpr (k, v) (List.mem_cons_self _ _)
    have hjs : jsIn k acc = false := by
      unfold jsIn
      rw [hk_in]
      simp [hk_pr]
    have hins : insertParam k v acc = acc ++ [(k, v)] := by
      unfold insertParam
      rw [hjs]
      simp
    rw [List.map_cons] at hnd
    obtain ⟨hk_notin, hnd2⟩ := List.nodup_cons.mp hnd
    rw [List.map_cons, parseParams_cons, parseParam_paramToken k v acc, hins]
    show parseParams (rest.map paramToken) (acc ++ [(k, v)]) = _
    rw [ih (acc ++ [(k, v)]) hnd2 (fun p hp => hpr p (List.mem_cons_of_mem _ hp)) ?_]
    · rw [List.append_assoc]
      rfl
    · intro p hp
      rw [lookupKey_append_none (hacc p (List.mem_cons_of_mem _ hp)), lookupKey_cons]
      have hmem : p.1 ∈ List.map Prod.fst rest := List.mem_map_of_mem Prod.fst hp
      have hkp : ¬ (k = p.1) := by
        intro he
        rw [he] at hk_notin
        exact hk_notin hmem
      rw [if_neg hkp]
      rfl

/-! ### Defaulting and parser unfolding -/

theorem applyDefaults_id {m : List Char} {ps : List (List Char × List Char)}
    (h : m ≠ [] ∨ (ps ≠ [] ∧ lookupKey (("charset").toList) ps = none)) :
    applyDefaults m ps = (m, ps) := by
  unfold applyDefaults
  rcases h with hm | ⟨hps, hlk⟩
  · rw [if_neg (fun hh => hm hh.1), if_neg (fun hh => hm hh.1)]
  · rw [if_neg (fun hh => hps hh.2), if_neg ?_]
    rintro ⟨-, hj⟩
    unfold jsIn at hj
    rw [hlk] at hj
    simp only [Option.isSome_none, Bool.or_false] at hj
    exact absurd (of_decide_eq_true hj) (by decide)

theorem parseSync_eq {s g1 g2 : List Char} (h : splitDataUrl s = some (g1, g2)) :
    parseSync s =
      (match parseParams (parseTokens g1).2.tail [] with
      | .error e => .error e
      | .ok ps =>
        match (parseTokens g1).2.head? with
        | none => .error (.typeError "Cannot read properties of undefined (reading 'length')")
        | some mime =>
          match (if (parseTokens g1).1 then base64_decode g2 else pct_decode g2) with
          | .error e => .error e
          | .ok bytes =>
            .ok ⟨(parseTokens g1).1, (applyDefaults mime ps).1, (applyDefaults mime ps).2,
              .buf bytes⟩) := by
  unfold parseSync
  rw [h]

theorem getLast?_cons_mem (a : List Char) (l : List (List Char)) (h : l ≠ []) :
    ∃ q ∈ l, (a :: l).getLast? = some q := by
  induction l generalizing a with
  | nil => exact absurd rfl h
  | cons b bs ih =>
    cases bs with
    | nil => exact ⟨b, List.mem_cons_self _ _, rfl⟩
    | cons c cs =>
      obtain ⟨q, hq, heq⟩ := ih b (by simp)
      exact ⟨q, List.mem_cons_of_mem _ hq, by rw [List.getLast?_cons_cons]; exact heq⟩

theorem splitDataUrl_cons (rest : List Char) :
    splitDataUrl ('d' :: 'a' :: 't' :: 'a' :: ':' :: rest) =
      if rest.any isLineTerm then none else splitFirst ',' rest := rfl

theorem any_lineTerm_false {l : List Char} (h : ∀ c ∈ l, isLineTerm c = false) :
    l.any isLineTerm = false := by
  cases hany : l.any isLineTerm with
  | false => rfl
  | true =>
    obtain ⟨c, hc, hct⟩ := List.any_eq_true.mp hany
    rw [h c hc] at hct
    exact Bool.noConfusion hct

theorem splitDataUrl_compose (T D : List Char)
    (hT : ∀ c ∈ T, c ≠ ',' ∧ isLineTerm c = false)
    (hD : ∀ c ∈ D, isLineTerm c = false) :
    splitDataUrl (("data:").toList ++ T ++ ',' :: D) = some (T, D) := by
  show splitDataUrl ('d' :: 'a' :: 't' :: 'a' :: ':' :: (T ++ ',' :: D)) = some (T, D)
  rw [splitDataUrl_cons, if_neg ?_, splitFirst_append T D fun hm => (hT ',' hm).1 rfl]
  rw [any_lineTerm_false ?_]
  · exact Bool.noConfusion
  · intro c hc
    rcases List.mem_append.mp hc with h1 | h2
    · exact (hT c h1).2
    rcases List.mem_cons.mp h2 with rfl | h3
    · decide
    · exact hD c h3

theorem parseTokens_compose_b64 (m : List Char) (ptoks : List (List Char))
    (hm : ';' ∉ m) (hp : ∀ u ∈ ptoks, ';' ∉ u) :
    parseTokens (joinSep ';' (m :: ptoks) ++ (";base64").toList) = (true, m :: ptoks) := by
  have hC : ∀ u ∈ m :: (ptoks ++ [("base64").toList]), ';' ∉ u := by
    intro u hu
    rcases List.mem_cons.mp hu with rfl | hu2
    · exact hm
    rcases List.mem_append.mp hu2 with h3 | h4
    · exact hp u h3
    · rcases List.mem_cons.mp h4 with rfl | h5
      · decide
      · simp at h5
  have hsplitT : jsSplit ';' (joinSep ';' (m :: ptoks) ++ (";base64").toList)
      = (m :: ptoks) ++ [("base64").toList] := by
    rw [show joinSep ';' (m :: ptoks) ++ (";base64").toList
      = joinSep ';' ((m :: ptoks) ++ [("base64").toList])
      from (joinSep_concat ';' m ptoks (("base64").toList)).symm]
    exact jsSplit_joinSep ';' m (ptoks ++ [("base64").toList]) hC
  unfold parseTokens
  rw [hsplitT, List.getLast?_concat, if_pos rfl, List.dropLast_concat]

theorem parseTokens_compose_plain (m : List Char) (ptoks : List (List Char))
    (hm : ';' ∉ m) (hp : ∀ u ∈ ptoks, ';' ∉ u)
    (hlast : ((m :: ptoks).getLast? = some (("base64").toList)) → False) :
    parseTokens (joinSep ';' (m :: ptoks)) = (false, m :: ptoks) := by
  have hC : ∀ u ∈ m :: ptoks, ';' ∉ u := by
    intro u hu
    rcases List.mem_cons.mp hu with rfl | hu2
    · exact hm
    · exact hp u hu2
  unfold parseTokens
  rw [jsSplit_joinSep ';' m ptoks hC, if_neg hlast]

/-! ### C1: parser/composer inverse -/

/-- C1 (counterexample): the round-trip fails as universally stated — the
record with mime `"a,b"` (non-empty, so it satisfies the claim's condition),
no parameters and an empty Buffer payload composes to `"data:a,b,"`, which
parses back with mime `"a"` and then fails decoding the leftover `"b,"`, so
`parseSync` raises instead of returning the record. -/
theorem C1_counterexample :
    ¬ (∀ (r : Info) (b : List Nat), r.data = JsData.buf b →
        (r.mime ≠ [] ∨ r.parameters ≠ []) →
        (composeSync r).bind parseSync = Except.ok r) := by
  intro h
  have h2 := h ⟨false, ("a,b").toList, [], JsData.buf []⟩ [] rfl (Or.inl (by decide))
  rw [show (composeSync ⟨false, ("a,b").toList, [], JsData.buf []⟩).bind parseSync =
    Except.error (JsErr.error "malformed data") from rfl] at h2
  exact Except.noConfusion h2

/-- C1 (amended): parsing inverts composing for every record whose payload is
a Buffer of bytes, whose mime string contains no `,`, `;` or line terminator,
whose parameter keys are distinct and do not collide with `Object.prototype`
property names, which does not trigger the RFC 2397 defaulting (mime
non-empty, or parameters non-empty without a `charset` key), and whose mime is
not the literal string `base64` while the base64 flag is unset and the
parameters are empty. -/
theorem C1_compose_parse_roundtrip (r : Info) (b : List Nat)
    (hdata : r.data = JsData.buf b)
    (hbytes : ∀ x ∈ b, x < 256)
    (hmime : ∀ c ∈ r.mime, c ≠ ',' ∧ c ≠ ';' ∧ isLineTerm c = false)
    (hkeys : (r.parameters.map Prod.fst).Nodup)
    (hproto : ∀ p ∈ r.parameters, p.1 ∉ protoProps)
    (hdef : r.mime ≠ [] ∨
      (r.parameters ≠ [] ∧ lookupKey (("charset").toList) r.parameters = none))
    (hb64tok : r.base64 = false → r.parameters = [] → r.mime ≠ ("base64").toList) :
    (composeSync r).bind parseSync = Except.ok r := by
  obtain ⟨b64, m, ps, d⟩ := r
  dsimp only at hdata hmime hkeys hproto hdef hb64tok
  subst hdata
  have hmime2 : ';' ∉ m := fun hc => (hmime ';' hc).2.1 rfl
  have hptoks : ∀ u ∈ ps.map paramToken, ';' ∉ u := by
    intro u hu hc
    obtain ⟨kv, -, rfl⟩ := List.mem_map.mp hu
    exact (paramToken_safe kv ';' hc).1 rfl
  have hjoin : ∀ c ∈ joinSep ';' (m :: ps.map paramToken),
      c ≠ ',' ∧ isLineTerm c = false := by
    intro c hc
    rcases mem_joinSep hc with rfl | ⟨t, ht, hct⟩
    · exact ⟨by decide, by decide⟩
    · rcases List.mem_cons.mp ht with rfl | htp
      · exact ⟨(hmime c hct).1, (hmime c hct).2.2⟩
      · obtain ⟨kv, -, rfl⟩ := List.mem_map.mp htp
        obtain ⟨-, h2', h3'⟩ := paramToken_safe kv c hct
        exact ⟨h2', h3'⟩
  have hparams : parseParams (ps.map paramToken) [] = .ok ps := by
    have h0 := parseParams_paramTokens ps [] hkeys hproto (fun p _ => rfl)
    rw [List.nil_append] at h0
    exact h0
  have hdefid : applyDefaults m ps = (m, ps) := applyDefaults_id hdef
  cases b64 with
  | false =>
    have hlast : ((m :: ps.map paramToken).getLast? = some (("base64").toList)) → False := by
      cases hps2 : ps.map paramToken with
      | nil =>
        have hps : ps = [] := List.map_eq_nil_iff.mp hps2
        intro he
        have hm_ne := hb64tok rfl hps
        exact hm_ne (by simpa using he)
      | cons q qs =>
        intro he
        obtain ⟨w, hw, heq⟩ := getLast?_cons_mem m (ps.map paramToken) (by rw [hps2]; simp)
        rw [hps2] at heq
        rw [heq] at he
        injection he with he2
        obtain ⟨kv, -, rfl⟩ := List.mem_map.mp hw
        exact paramToken_ne_base64 kv he2
    show parseSync (("data:").toList ++ (joinSep ';' (m :: ps.map paramToken) ++ []) ++
      ',' :: pct_encode b) = Except.ok ⟨false, m, ps, JsData.buf b⟩
    rw [List.append_nil]
    rw [parseSync_eq (splitDataUrl_compose (joinSep ';' (m :: ps.map paramToken))
      (pct_encode b) hjoin (fun c hc => (pct_encode_safe hbytes c hc).2.2.2))]
    rw [parseTokens_compose_plain m (ps.map paramToken) hmime2 hptoks hlast]
    show (match parseParams (ps.map paramToken) [] with
      | .error e => .error e
      | .ok ps2 =>
        match some m with
        | none =>
          Except.error (JsErr.typeError "Cannot read properties of undefined (reading 'length')")
        | some mime =>
          match pct_decode (pct_encode b) with
          | .error e => .error e
          | .ok bytes =>
            Except.ok (Info.mk false (applyDefaults mime ps2).1 (applyDefaults mime ps2).2
              (JsData.buf bytes)) : Except JsErr Info) =
      Except.ok (Info.mk false m ps (JsData.buf b))
    rw [hparams]
    show (match pct_decode (pct_encode b) with
      | .error e => .error e
      | .ok bytes =>
        Except.ok (Info.mk false (applyDefaults m ps).1 (applyDefaults m ps).2
          (JsData.buf bytes)) : Except JsErr Info) =
      Except.ok (Info.mk false m ps (JsData.buf b))
    rw [pct_roundtrip b hbytes]
    show Except.ok (Info.mk false (applyDefaults m ps).1 (applyDefaults m ps).2 (JsData.buf b)) =
      Except.ok (Info.mk false m ps (JsData.buf b))
    rw [hdefid]
  | true =>
    have hTsafe : ∀ c ∈ joinSep ';' (m :: ps.map paramToken) ++ (";base64").toList,
        c ≠ ',' ∧ isLineTerm c = false := by
      intro c hc
      rcases List.mem_append.mp hc with h1 | h2
      · exact hjoin c h1
      · exact (by decide : ∀ c ∈ (";base64").toList, c ≠ ',' ∧ isLineTerm c = false) c h2
    show parseSync (("data:").toList ++ (joinSep ';' (m :: ps.map paramToken) ++
      (";base64").toList) ++ ',' :: base64_encode b) = Except.ok ⟨true, m, ps, JsData.buf b⟩
    rw [parseSync_eq (splitDataUrl_compose (joinSep ';' (m :: ps.map paramToken) ++
      (";base64").toList) (base64_encode b) hTsafe (b64_encode_safe hbytes))]
    rw [parseTokens_compose_b64 m (ps.map paramToken) hmime2 hptoks]
    show (match parseParams (ps.map paramToken) [] with
      | .error e => .error e
      | .ok ps2 =>
        match some m with
        | none =>
          Except.error (JsErr.typeError "Cannot read properties of undefined (reading 'length')")
        | some mime =>
          match base64_decode (base64_encode b) with
          | .error e => .error e
          | .ok bytes =>
            Except.ok (Info.mk true (applyDefaults mime ps2).1 (applyDefaults mime ps2).2
              (JsData.buf bytes)) : Except JsErr Info) =
      Except.ok (Info.mk true m ps (JsData.buf b))
    rw [hparams]
    show (match base64_decode (base64_encode b) with
      | .error e => .error e
      | .ok bytes =>
        Except.ok (Info.mk true (applyDefaults m ps).1 (applyDefaults m ps).2
          (JsData.buf bytes)) : Except JsErr Info) =
      Except.ok (Info.mk true m ps (JsData.buf b))
    rw [b64_roundtrip b hbytes]
    show Except.ok (Info.mk true (applyDefaults m ps).1 (applyDefaults m ps).2 (JsData.buf b)) =
      Except.ok (Info.mk true m ps (JsData.buf b))
    rw [hdefid]

theorem C1_witness :
    (composeSync ⟨false, ['x'], [], JsData.buf [65]⟩).bind parseSync =
      Except.ok ⟨false, ['x'], [], JsData.buf [65]⟩ :=
  C1_compose_parse_roundtrip ⟨false, ['x'], [], JsData.buf [65]⟩ [65] rfl
    (by decide) (by decide) (by decide) (by decide) (Or.inl (by decide))
    (fun _ _ => by decide)

end RFC2397
